import Mathlib

/-!
Verification of the frontend chat panel (`apps/frontend/components/chat-panel.tsx`).

The TypeScript source is shallowly embedded:

* Raw SSE text handling (`buffer.split("\n\n")`, `parseSseBlock`) is modelled
  over `List Char`, with JavaScript's `String.prototype.split`, `trim`,
  `trimStart`, `trimEnd`, `startsWith`, `slice` translated to executable
  list functions.
* JSON values flowing through the untyped `parseJson<T>` casts are modelled by
  `JsVal` (the TypeScript type annotations are unchecked casts at runtime, so
  payload fields may hold any JSON scalar, `null`, or be absent).  `JSON.parse`
  itself is a platform builtin; the stream-consumer machine therefore takes
  already-decoded events as input, one constructor per `parsed.event` branch of
  the source.
* React state updates (`patchMessage`, `appendMessageText`,
  `setConversationId`) become explicit state passing on `MsgState`.
-/

set_option maxHeartbeats 1000000

namespace ChatPanel

/-- Runtime JavaScript value as far as the chat panel inspects one: the
payload fields reached through the unchecked `parseJson<T>` casts can be
`undefined` (absent field), `null`, a string, a number (modelled on `Int`),
or a boolean. -/
inductive JsVal where
  | vundef
  | vnull
  | vstr (s : String)
  | vnum (n : Int)
  | vbool (b : Bool)
  deriving DecidableEq, Repr

/-- JavaScript `String(v)` coercion as performed by template literals and the
`Error` constructor. -/
def jsToString : JsVal → String
  | .vundef => "undefined"
  | .vnull => "null"
  | .vstr s => s
  | .vnum n => toString n
  | .vbool b => if b then "true" else "false"

/-- JavaScript truthiness (`if (v)`): `undefined`, `null`, `""`, `0`, `false`
are falsy. -/
def jsTruthy : JsVal → Bool
  | .vundef => false
  | .vnull => false
  | .vstr s => !(s == "")
  | .vnum n => !(n == 0)
  | .vbool b => b

/-- JavaScript nullishness, the test used by the `??` operator. -/
def jsNullish : JsVal → Bool
  | .vundef => true
  | .vnull => true
  | _ => false

/-- JavaScript `a ?? b`. -/
def jsCoalesce (a b : JsVal) : JsVal :=
  if jsNullish a then b else a

/-- Whitespace as used by JavaScript `trim`/`trimStart`/`trimEnd`
(restricted to the ASCII whitespace characters relevant to SSE framing). -/
def isJsWs (c : Char) : Bool := c.isWhitespace

/-- JavaScript `s.trimEnd()` over a character list. -/
def jsTrimEndL (l : List Char) : List Char :=
  (l.reverse.dropWhile isJsWs).reverse

/-- JavaScript `s.trimStart()` over a character list. -/
def jsTrimStartL (l : List Char) : List Char :=
  l.dropWhile isJsWs

/-- JavaScript `s.trim()` over a character list. -/
def jsTrimL (l : List Char) : List Char :=
  jsTrimStartL (jsTrimEndL l)

/-- JavaScript `s.trim()` on a `String` (used on the chat input field,
`chat-panel.tsx:151`). -/
def jsTrimString (s : String) : String :=
  String.mk (jsTrimL s.data)

/-!
SSE framing: the read loop (`chat-panel.tsx:213-221`) repeatedly appends the
decoded chunk to `buffer`, splits the buffer on `"\n\n"`, keeps the last
(possibly incomplete) piece as the new buffer and hands every complete piece
to `parseSseBlock`.
-/

/-- JavaScript `s.split("\n\n")`: leftmost-first scan cutting at each
occurrence of two consecutive newlines. -/
def splitBlocks : List Char → List (List Char)
  | [] => [[]]
  | [c] => [[c]]
  | c :: d :: rest =>
    if c = '\n' ∧ d = '\n' then
      [] :: splitBlocks rest
    else
      match splitBlocks (d :: rest) with
      | [] => [[c]]
      | b :: bs => (c :: b) :: bs

/-- One iteration of the read loop on a newly decoded chunk
(`chat-panel.tsx:217-219`): returns the new buffer and the complete blocks
consumed in this iteration. -/
def feedChunk (buf chunk : List Char) : List Char × List (List Char) :=
  let blocks := splitBlocks (buf ++ chunk)
  (blocks.getLastD [], blocks.dropLast)

/-- The whole read loop over a chunk sequence: final buffer contents and the
blocks handed to `parseSseBlock`, in order. -/
def feedChunks : List Char → List (List Char) → List Char × List (List Char)
  | buf, [] => (buf, [])
  | buf, c :: cs =>
    let r1 := feedChunk buf c
    let r2 := feedChunks r1.1 cs
    (r2.1, r1.2 ++ r2.2)

/-- Parsed SSE block: event name and joined data payload
(`chat-panel.tsx:58-82`). -/
structure SsePair where
  event : List Char
  data : List Char
  deriving DecidableEq, Repr

/-- The list of characters of the string constant `"event:"`. -/
def evMark : List Char := "event:".data

/-- The list of characters of the string constant `"data:"`. -/
def dataMark : List Char := "data:".data

/-- The `for (const rawLine of lines)` loop body of `parseSseBlock`
(`chat-panel.tsx:63-75`), threading the current event name and the collected
data payloads. -/
def parseSseLoop : List (List Char) → List Char → List (List Char) →
    List Char × List (List Char)
  | [], ev, ds => (ev, ds)
  | raw :: rest, ev, ds =>
    let line := jsTrimEndL raw
    if line = [] then
      parseSseLoop rest ev ds
    else if evMark.isPrefixOf line then
      parseSseLoop rest (jsTrimL (line.drop 6)) ds
    else if dataMark.isPrefixOf line then
      parseSseLoop rest ev (ds ++ [jsTrimStartL (line.drop 5)])
    else
      parseSseLoop rest ev ds

/-- `parseSseBlock` (`chat-panel.tsx:58-82`): split the block on `'\n'`,
right-trim each line, take the event name from the last `event:` line
(default `"message"`), collect the `data:` payloads, return `none` when no
data line appeared. -/
def parseSseBlock (block : List Char) : Option SsePair :=
  let r := parseSseLoop (block.splitOn '\n') "message".data []
  if r.2 = [] then none
  else some ⟨r.1, List.intercalate ['\n'] r.2⟩

/-!
Stream consumption (`sendMessageStreaming`, `chat-panel.tsx:184-268`).

Each complete SSE block yields an `(event, data)` pair; the `data` string is
then passed through `parseJson` (an unchecked-cast wrapper around the platform
`JSON.parse`, `chat-panel.tsx:50-56`).  Since `JSON.parse` is external, the
machine below consumes events whose payloads are already decoded: `none`
stands for a payload on which `parseJson` returned `null` (or that is itself
nullish), and field values are arbitrary `JsVal`s because `parseJson<T>`
performs no validation.
-/

/-- Decoded payload of a `delta` event (`StreamDelta`, `chat-panel.tsx:19-21`):
the `content` field, `vundef` when absent. -/
structure StreamDelta where
  content : JsVal
  deriving DecidableEq, Repr

/-- Decoded payload of an `error` event (`StreamError`, `chat-panel.tsx:23-25`):
the `message` field, `vundef` when absent. -/
structure StreamError where
  message : JsVal
  deriving DecidableEq, Repr

/-- Decoded payload of a `final` event (`ChatResponse`, `chat-panel.tsx:12-17`);
all fields are unvalidated runtime values. -/
structure ChatResponse where
  conversation_id : JsVal
  assistant_message : JsVal
  receipt_id : JsVal
  data : JsVal
  deriving DecidableEq, Repr

/-- One parsed-and-decoded stream event, a constructor per branch of the
dispatch on `parsed.event` (`chat-panel.tsx:225-261`); `other` covers every
event name the code ignores. -/
inductive SEvent where
  | start
  | delta (p : Option StreamDelta)
  | err (p : Option StreamError)
  | fin (p : Option ChatResponse)
  | other
  deriving DecidableEq, Repr

/-- The visible state the streaming turn manipulates: the assistant message's
`text` and `data` (via `patchMessage`/`appendMessageText`) and the component's
`conversationId` (via `setConversationId`). -/
structure MsgState where
  text : JsVal
  data : JsVal
  convId : JsVal
  deriving DecidableEq, Repr

/-- Result of the block-processing loop: finished with final state and the
`hasDelta`/`gotFinal` flags, or an exception carrying the thrown `Error`
message and the state at the throw. -/
inductive LoopRes where
  | done (m : MsgState) (hasDelta gotFinal : Bool)
  | thrown (msg : String) (m : MsgState)
  deriving DecidableEq, Repr

/-- `const piece = delta?.content ?? ""` (`chat-panel.tsx:232`). -/
def deltaPiece (p : Option StreamDelta) : JsVal :=
  jsCoalesce (match p with | none => .vundef | some q => q.content) (.vstr "")

/-- The `Error` message thrown by the `error` branch
(`chat-panel.tsx:244-246`): `streamError?.message ?? "Error en streaming"`,
string-coerced by the `Error` constructor. -/
def errThrowMsg (p : Option StreamError) : String :=
  jsToString
    (jsCoalesce (match p with | none => .vundef | some q => q.message)
      (.vstr "Error en streaming"))

/-- The event-processing loop of `sendMessageStreaming`
(`chat-panel.tsx:221-262`), threading the message state and the two local
flags `hasDelta` and `gotFinal`.  Note the `final` branch does not break out
of the loop: later events are still processed. -/
def processEvents (m : MsgState) (hasDelta gotFinal : Bool) :
    List SEvent → LoopRes
  | [] => .done m hasDelta gotFinal
  | e :: rest =>
    match e with
    | .start => processEvents { m with text := .vstr "Procesando..." } hasDelta gotFinal rest
    | .delta p =>
      let piece := deltaPiece p
      if jsTruthy piece then
        let m1 := if hasDelta then m else { m with text := .vstr "" }
        processEvents
          { m1 with text := .vstr (jsToString m1.text ++ jsToString piece) }
          true gotFinal rest
      else
        processEvents m hasDelta gotFinal rest
    | .err p => .thrown (errThrowMsg p) m
    | .fin p =>
      match p with
      | none => .thrown "No se pudo leer respuesta final del stream" m
      | some fp =>
        processEvents
          { text := fp.assistant_message, data := fp.data,
            convId := fp.conversation_id }
          hasDelta true rest
    | .other => processEvents m hasDelta gotFinal rest

/-- Overall outcome of `sendMessageStreaming`: normal return, or a thrown
`Error` message together with the visible state at that point. -/
inductive Outcome where
  | ok (m : MsgState)
  | thrown (msg : String) (m : MsgState)
  deriving DecidableEq, Repr

/-- Whether the function returned normally. -/
def Outcome.isOk : Outcome → Bool
  | .ok _ => true
  | .thrown _ _ => false

/-- The streaming body after a successful HTTP response
(`chat-panel.tsx:207-267`): run the event loop with both flags `false`, then
throw `"El stream finalizo sin evento final"` if no `final` event was
processed. -/
def runStreaming (m : MsgState) (evs : List SEvent) : Outcome :=
  match processEvents m false false evs with
  | .done m' _ gotFinal =>
    if gotFinal then .ok m' else .thrown "El stream finalizo sin evento final" m'
  | .thrown msg m' => .thrown msg m'

/-- The `catch` handler of `sendMessage` (`chat-panel.tsx:174-178`): on a
thrown `Error` the assistant message text becomes `"Error: "` plus the error
message and its `data` is reset to `undefined`. -/
def handleTurn (m : MsgState) (evs : List SEvent) : MsgState :=
  match runStreaming m evs with
  | .ok m' => m'
  | .thrown msg m' => { m' with text := .vstr ("Error: " ++ msg), data := .vundef }

/-- Visible state carried by a loop result. -/
def LoopRes.state : LoopRes → MsgState
  | .done m _ _ => m
  | .thrown _ m => m

/-- Whether the loop finished without throwing. -/
def LoopRes.isDone : LoopRes → Bool
  | .done _ _ _ => true
  | .thrown _ _ => false

/-- The `gotFinal` flag of a finished loop (`false` for a throw). -/
def LoopRes.got : LoopRes → Bool
  | .done _ _ g => g
  | .thrown _ _ => false

/-- Event whose branch throws unconditionally: an `error` event. -/
def isErrEv : SEvent → Bool
  | .err _ => true
  | _ => false

/-- `final` event whose payload decoded successfully. -/
def isGoodFin : SEvent → Bool
  | .fin (some _) => true
  | _ => false

/-- `final` event whose payload failed to decode (the branch throws
`"No se pudo leer respuesta final del stream"`). -/
def isBadFin : SEvent → Bool
  | .fin none => true
  | _ => false

/-- Event that neither throws nor is a `final`: `start`, `delta`, or an
ignored event name. -/
def isNeutral (e : SEvent) : Bool :=
  !(isErrEv e || isGoodFin e || isBadFin e)

/-!
Form submission (`sendMessage`, `chat-panel.tsx:147-182`): guard on `loading`,
trim the input, bail out when both text and file are absent, append the user
message and the assistant placeholder, and build the multipart request body.
-/

/-- Message role in the UI transcript. -/
inductive Role where
  | user
  | assistant
  deriving DecidableEq, Repr

/-- A transcript message as appended by `sendMessage` (`UiMessage` without the
random `id`, which carries no information relevant to the claims). -/
structure UiMsg where
  role : Role
  text : String
  data : JsVal
  deriving DecidableEq, Repr

/-- Selected file (only its `name` is read by the code under verification). -/
structure FileV where
  name : String
  deriving DecidableEq, Repr

/-- The multipart body built at `chat-panel.tsx:163-166`: each field is
appended only when its guard is truthy. -/
structure FormDataModel where
  conversation_id : Option String
  message : Option String
  file : Option FileV
  deriving DecidableEq, Repr

/-- `chat-panel.tsx:163-166`: `conversation_id` iff the stored id is truthy
(non-empty), `message` iff the trimmed text is truthy (non-empty), `file` iff
a file is selected. -/
def buildFormData (cid text : String) (f : Option FileV) : FormDataModel :=
  { conversation_id := if cid = "" then none else some cid,
    message := if text = "" then none else some text,
    file := f }

/-- Text of the appended user message (`chat-panel.tsx:157`):
`` `${text || "Archivo enviado"} (${file.name})` `` when a file is attached,
the trimmed text otherwise. -/
def userMsgText (text : String) (f : Option FileV) : String :=
  match f with
  | some fl => (if text = "" then "Archivo enviado" else text) ++ " (" ++ fl.name ++ ")"
  | none => text

/-- The synchronous prefix of `sendMessage` (`chat-panel.tsx:147-170`):
returns the messages appended to the transcript and the request body handed to
`sendMessageStreaming` (`none` when no request is issued). -/
def sendMessagePrep (loading : Bool) (input : String) (f : Option FileV)
    (cid : String) : List UiMsg × Option FormDataModel :=
  if loading then ([], none)
  else
    let text := jsTrimString input
    if text = "" ∧ f = none then ([], none)
    else
      ([⟨.user, userMsgText text f, .vundef⟩,
        ⟨.assistant, "Procesando...", .vundef⟩],
       some (buildFormData cid text f))

/-!
Manual correction (`saveManualCorrection`, `chat-panel.tsx:298-327`): the
PATCH body.
-/

/-- The editor's receipt form state (`EditableReceipt`,
`chat-panel.tsx:27-38`); every field is a string bound to a text input. -/
structure EditableReceipt where
  id : String
  vendor_name : String
  receipt_number : String
  payment_method : String
  status : String
  currency : String
  issue_date : String
  subtotal : String
  tax : String
  total : String
  deriving DecidableEq, Repr

/-- A JSON value placed in the PATCH body: `null`, a string, or the JavaScript
number `Number(source)` (numbers are represented by the source string they
were converted from; which keys are numeric and when they appear is what the
claims inspect). -/
inductive PatchValue where
  | pnull
  | pstr (s : String)
  | pnum (source : String)
  deriving DecidableEq, Repr

/-- `field || null` (`chat-panel.tsx:308-313`): the empty string is falsy. -/
def strOrNull (s : String) : PatchValue :=
  if s = "" then .pnull else .pstr s

/-- The PATCH body built at `chat-panel.tsx:307-318`: six always-present keys
and three numeric keys present only when their editor field is non-empty. -/
structure PatchPayload where
  vendor_name : PatchValue
  receipt_number : PatchValue
  payment_method : PatchValue
  status : PatchValue
  currency : PatchValue
  issue_date : PatchValue
  subtotal : Option PatchValue
  tax : Option PatchValue
  total : Option PatchValue
  deriving DecidableEq, Repr

/-- Construction of the PATCH body from the editor state
(`chat-panel.tsx:307-318`). -/
def buildPatchPayload (e : EditableReceipt) : PatchPayload :=
  { vendor_name := strOrNull e.vendor_name,
    receipt_number := strOrNull e.receipt_number,
    payment_method := strOrNull e.payment_method,
    status := strOrNull e.status,
    currency := strOrNull e.currency,
    issue_date := strOrNull e.issue_date,
    subtotal := if e.subtotal = "" then none else some (.pnum e.subtotal),
    tax := if e.tax = "" then none else some (.pnum e.tax),
    total := if e.total = "" then none else some (.pnum e.total) }

/-!
HTTP error path (`parseApiError`, `chat-panel.tsx:90-94`, and the non-ok
branch of `sendMessageStreaming`, `chat-panel.tsx:193-205`).
-/

/-- Decoded `error` field of an error response body: its `message` field as a
runtime value (`vundef` when absent or unreachable). -/
structure ApiErrInner where
  message : JsVal
  deriving DecidableEq, Repr

/-- Decoded error response body: `error` is `none` when the field is absent
or not an object. -/
structure ApiErrOuter where
  error : Option ApiErrInner
  deriving DecidableEq, Repr

/-- `parseApiError` (`chat-panel.tsx:90-94`): return `parsed.error.message`
when that chain is truthy, the raw body text otherwise.  `parsed` is the
result of `parseJson` on `raw` (`JSON.parse` being external, it is passed in
already decoded, `none` for a parse failure or nullish result). -/
def parseApiError (raw : String) (parsed : Option ApiErrOuter) : JsVal :=
  match parsed with
  | some o =>
    match o.error with
    | some inner => if jsTruthy inner.message then inner.message else .vstr raw
    | none => .vstr raw
  | none => .vstr raw

/-- The `Error` message thrown on a non-ok response (`chat-panel.tsx:193-196`):
`parseApiError(detail) || "Error enviando mensaje"`, string-coerced by the
`Error` constructor. -/
def httpErrMessage (raw : String) (parsed : Option ApiErrOuter) : String :=
  let r := parseApiError raw parsed
  if jsTruthy r then jsToString r else "Error enviando mensaje"

/-- JavaScript `s.includes(pat)` over character lists
(used on the `content-type` header, `chat-panel.tsx:203`). -/
def listIncl (s pat : List Char) : Bool :=
  s.tails.any (fun t => pat.isPrefixOf t)

/-- The HTTP response as observed by `sendMessageStreaming`: status, body text
with its decode, presence of a body stream, content type, and the decoded
event sequence the stream would deliver. -/
structure HttpResp where
  ok : Bool
  bodyText : String
  bodyParsed : Option ApiErrOuter
  hasBody : Bool
  contentType : String
  events : List SEvent

/-- `sendMessageStreaming` end to end (`chat-panel.tsx:184-268`): the three
pre-stream guards in source order, then the event loop. -/
def sendMessageStreamingRun (resp : HttpResp) (m : MsgState) : Outcome :=
  if resp.ok = false then
    .thrown (httpErrMessage resp.bodyText resp.bodyParsed) m
  else if resp.hasBody = false then
    .thrown "El servidor no devolvio stream" m
  else if listIncl resp.contentType.data "text/event-stream".data = false then
    .thrown "Respuesta inesperada del servidor (sin SSE)" m
  else
    runStreaming m resp.events

/-!
Auxiliary definitions used to state the claims: concatenation in arrival
order, claim-side reference functions, and concrete fixtures.
-/

/-- Concatenation of a list of strings in order (the claims' `c1 ++ ... ++ cn`). -/
def concatStrs : List String → String
  | [] => ""
  | s :: rest => s ++ concatStrs rest

/-- String contributed by one `delta` event: the decoded `content` coerced by
the `??`/append pipeline ( `""` for an absent or nullish field). -/
def pieceStr (d : Option StreamDelta) : String :=
  jsToString (deltaPiece d)

/-- A `delta` payload carrying text as the spec describes it: its `content`
field is a string, or missing/null. -/
def textualDelta : Option StreamDelta → Prop
  | none => True
  | some q => q.content = .vundef ∨ q.content = .vnull ∨ ∃ s, q.content = .vstr s

/-- The terminal condition claim C1 asserts to be equivalent to normal
completion: some `final` event occurs, with no `error` event before it. -/
def claimC1Cond (evs : List SEvent) : Prop :=
  ∃ pre p rest, evs = pre ++ SEvent.fin (some p) :: rest ∧ ∀ e ∈ pre, isErrEv e = false

/-- Wording of amended claim C4 for the thrown message: the `message` field
itself when it is a string, its string conversion when it is present and
non-nullish, the fixed text when the payload is unparseable or the field is
missing or null. -/
def errMsgSpec : Option StreamError → String
  | none => "Error en streaming"
  | some q =>
    match q.message with
    | .vundef => "Error en streaming"
    | .vnull => "Error en streaming"
    | .vstr s => s
    | .vnum n => jsToString (.vnum n)
    | .vbool b => jsToString (.vbool b)

/-- Claim C8's literal description of the non-ok error message: the string at
`error.message` when the body parses as a JSON object carrying one, the raw
body text when it does not, the fixed text when that result is empty. -/
def specHttpErrMessage (raw : String) (parsed : Option ApiErrOuter) : String :=
  let r := match parsed with
    | some ⟨some ⟨.vstr s⟩⟩ => s
    | _ => raw
  if r = "" then "Error enviando mensaje" else r

/-- Claim C10's literal description of `parseSseBlock`: `none` iff no line
starts with `data:`; otherwise the event name from the last line starting
with `event:` (trimmed, default `"message"`) and the `data:` payloads
stripped of the prefix and leading whitespace only, joined by newlines. -/
def sseBlockClaim (block : List Char) : Option SsePair :=
  let lines := block.splitOn '\n'
  let ds := (lines.filter (fun l => dataMark.isPrefixOf l)).map
      (fun l => jsTrimStartL (l.drop 5))
  if ds = [] then none
  else
    some ⟨(((lines.filter (fun l => evMark.isPrefixOf l)).getLast?).map
        (fun l => jsTrimL (l.drop 6))).getD "message".data,
      List.intercalate ['\n'] ds⟩

/-- Amended claim C10: as `sseBlockClaim`, except that each data line is
right-trimmed before the prefix is stripped (matching the `trimEnd` the code
applies to every line). -/
def sseBlockSpec (block : List Char) : Option SsePair :=
  let lines := block.splitOn '\n'
  let ds := (lines.filter (fun l => dataMark.isPrefixOf l)).map
      (fun l => jsTrimStartL ((jsTrimEndL l).drop 5))
  if ds = [] then none
  else
    some ⟨(((lines.filter (fun l => evMark.isPrefixOf l)).getLast?).map
        (fun l => jsTrimL (l.drop 6))).getD "message".data,
      List.intercalate ['\n'] ds⟩

/-- Component state at the start of a streaming turn: the assistant
placeholder message just appended by `sendMessage` (`chat-panel.tsx:161`) and
an empty stored conversation id. -/
def mInit : MsgState := ⟨.vstr "Procesando...", .vundef, .vstr ""⟩

/-- A well-formed `final` payload used as concrete input. -/
def fpA : ChatResponse := ⟨.vstr "c1", .vstr "listo", .vundef, .vundef⟩

/-- Raw response body `{"error":{"message":""}}` used as concrete input for C8. -/
def rawC8 : String := "\x7b\"error\":\x7b\"message\":\"\"\x7d\x7d"

/-- A non-ok HTTP response with a plain-text body, used as concrete input. -/
def respX : HttpResp := ⟨false, "oops", none, true, "", []⟩

/-- A concrete sequence of two decoded `delta` payloads carrying `"Ho"` and
`"la"`. -/
def dsW : List (Option StreamDelta) := [some ⟨.vstr "Ho"⟩, some ⟨.vstr "la"⟩]

/-! Helper lemmas. -/

lemma strAppendEqEmpty {a b : String} : a ++ b = "" ↔ a = "" ∧ b = "" := by
  constructor
  · intro h
    have hd : a.data ++ b.data = [] := by
      have := congrArg String.data h
      simpa [String.data_append] using this
    rcases List.append_eq_nil.mp hd with ⟨ha, hb⟩
    exact ⟨String.ext ha, String.ext hb⟩
  · rintro ⟨rfl, rfl⟩
    rfl

lemma errThrowMsg_eq_spec (p : Option StreamError) : errThrowMsg p = errMsgSpec p := by
  rcases p with _ | ⟨⟨v⟩⟩
  · rfl
  · cases v <;> rfl

/-! Claim theorems. -/

/-- C3, counterexample: the claim says that once a `final` event has been
processed no later event changes the visible state, but the loop keeps
processing events after a `final`; a subsequent `start` event resets the
displayed assistant text from the final answer back to `"Procesando..."`. -/
theorem c3_counterexample :
    (processEvents mInit false false [SEvent.fin (some fpA)]).state.text = .vstr "listo"
    ∧ (processEvents mInit false false
        [SEvent.fin (some fpA), SEvent.start]).state.text = .vstr "Procesando..."
    ∧ JsVal.vstr "listo" ≠ JsVal.vstr "Procesando..." :=
  ⟨rfl, rfl, by decide⟩

/-- C3, amended: after an `error` event nothing further from the stream is
processed at all — the loop throws at the error with the state unchanged from
just before it, whatever events follow; events after a `final`, by contrast,
are still processed and can change the visible state. -/
theorem c3_amended_thm (m : MsgState) (hd gf : Bool) (p : Option StreamError)
    (rest : List SEvent) :
    processEvents m hd gf (SEvent.err p :: rest) = .thrown (errThrowMsg p) m := rfl

/-- C7: the PATCH body maps each of the six string fields to `null` when the
editor field is empty and to the entered string otherwise, and contains the
keys `subtotal`, `tax`, `total` iff their fields are non-empty, carrying the
numeric conversion of the entered string. -/
theorem c7_patch_payload (e : EditableReceipt) :
    buildPatchPayload e =
      { vendor_name := if e.vendor_name = "" then .pnull else .pstr e.vendor_name,
        receipt_number := if e.receipt_number = "" then .pnull else .pstr e.receipt_number,
        payment_method := if e.payment_method = "" then .pnull else .pstr e.payment_method,
        status := if e.status = "" then .pnull else .pstr e.status,
        currency := if e.currency = "" then .pnull else .pstr e.currency,
        issue_date := if e.issue_date = "" then .pnull else .pstr e.issue_date,
        subtotal := if e.subtotal = "" then none else some (.pnum e.subtotal),
        tax := if e.tax = "" then none else some (.pnum e.tax),
        total := if e.total = "" then none else some (.pnum e.total) }
    ∧ ((buildPatchPayload e).subtotal = none ↔ e.subtotal = "")
    ∧ ((buildPatchPayload e).tax = none ↔ e.tax = "")
    ∧ ((buildPatchPayload e).total = none ↔ e.total = "")
    ∧ ((buildPatchPayload e).vendor_name = .pnull ↔ e.vendor_name = "") := by
  refine ⟨rfl, ?_, ?_, ?_, ?_⟩ <;>
    simp only [buildPatchPayload, strOrNull] <;> split <;> simp_all

lemma httpErrMessage_spec (raw : String) (parsed : Option ApiErrOuter) :
    httpErrMessage raw parsed =
      (match parsed with
       | some ⟨some ⟨mv⟩⟩ =>
          if jsTruthy mv then jsToString mv
          else if raw = "" then "Error enviando mensaje" else raw
       | _ => if raw = "" then "Error enviando mensaje" else raw) := by
  rcases parsed with _ | ⟨_ | ⟨⟨mv⟩⟩⟩
  · by_cases hb : raw = "" <;> simp [httpErrMessage, parseApiError, jsTruthy, jsToString, hb]
  · by_cases hb : raw = "" <;> simp [httpErrMessage, parseApiError, jsTruthy, jsToString, hb]
  · by_cases hm : jsTruthy mv = true
    · simp [httpErrMessage, parseApiError, hm]
    · have hm' : jsTruthy mv = false := by simpa using hm
      simp only [httpErrMessage, parseApiError, hm', Bool.false_eq_true, if_false]
      by_cases hb : raw = "" <;> simp [jsTruthy, jsToString, hb]

lemma processEvents_err_after_neutral (pre : List SEvent) :
    ∀ (m : MsgState) (hd gf : Bool) (p : Option StreamError) (rest : List SEvent),
    pre.all isNeutral = true →
    ∃ m', processEvents m hd gf (pre ++ SEvent.err p :: rest) = .thrown (errThrowMsg p) m' := by
  induction pre with
  | nil => exact fun m hd gf p rest _ => ⟨m, rfl⟩
  | cons e pr ih =>
    intro m hd gf p rest h
    rw [List.all_cons, Bool.and_eq_true] at h
    cases e with
    | start => exact ih _ hd gf p rest h.2
    | delta q =>
      by_cases hq : jsTruthy (deltaPiece q) = true
      · simpa only [List.cons_append, processEvents, hq, if_true] using ih _ true gf p rest h.2
      · simpa only [List.cons_append, processEvents, hq, if_false] using ih _ hd gf p rest h.2
    | err q => simp [isNeutral, isErrEv] at h
    | fin q =>
      cases q with
      | none => simp [isNeutral, isBadFin] at h
      | some fp => simp [isNeutral, isGoodFin] at h
    | other => exact ih _ hd gf p rest h.2

/-- C4, counterexample: an `error` event whose decoded payload has a numeric
`message` field (here the number `5`) makes the function throw an `Error`
whose message is the string conversion `"5"`, not the fixed text
`"Error en streaming"` the claim prescribes for every non-string field. -/
theorem c4_counterexample :
    runStreaming mInit [SEvent.err (some ⟨.vnum 5⟩)] = .thrown "5" mInit
    ∧ handleTurn mInit [SEvent.err (some ⟨.vnum 5⟩)]
        = { mInit with text := .vstr "Error: 5", data := .vundef }
    ∧ ("5" : String) ≠ "Error en streaming" := by
  refine ⟨by decide, by decide, by decide⟩

/-- C4, amended: whenever an `error` event is parsed before any `final` event,
`sendMessageStreaming` throws an `Error` whose message is the payload's
`message` field when it is a string, the string conversion of the field when
it is present and non-nullish but not a string, and `"Error en streaming"`
when the payload is unparseable or the field is missing or null; the caller
`sendMessage` then replaces the assistant message text with `"Error: "`
followed by that message (and clears its attached data). -/
theorem c4_amended_thm (m : MsgState) (pre : List SEvent) (p : Option StreamError)
    (rest : List SEvent) (h : pre.all isNeutral = true) :
    ∃ m', runStreaming m (pre ++ SEvent.err p :: rest) = .thrown (errThrowMsg p) m'
      ∧ handleTurn m (pre ++ SEvent.err p :: rest)
          = { m' with text := .vstr ("Error: " ++ errThrowMsg p), data := .vundef }
      ∧ errThrowMsg p = errMsgSpec p := by
  obtain ⟨m', hm⟩ := processEvents_err_after_neutral pre m false false p rest h
  exact ⟨m', by simp [runStreaming, hm], by simp [handleTurn, runStreaming, hm],
    errThrowMsg_eq_spec p⟩

/-- C4, witness: the amended theorem applied to a stream holding a `start`
event and then an `error` event carrying the string message `"boom"`. -/
theorem c4_witness :
    ∃ m', runStreaming mInit [SEvent.start, SEvent.err (some ⟨.vstr "boom"⟩)]
        = .thrown (errThrowMsg (some ⟨.vstr "boom"⟩)) m'
      ∧ handleTurn mInit [SEvent.start, SEvent.err (some ⟨.vstr "boom"⟩)]
          = { m' with text := .vstr ("Error: " ++ errThrowMsg (some ⟨.vstr "boom"⟩)), data := .vundef }
      ∧ errThrowMsg (some ⟨.vstr "boom"⟩) = errMsgSpec (some ⟨.vstr "boom"⟩) :=
  c4_amended_thm mInit [SEvent.start] (some ⟨.vstr "boom"⟩) [] (by decide)

/-- C5: with the panel idle (`loading = false`), a submission with empty
trimmed text and no file appends no message and issues no request; otherwise
exactly one user message and one assistant placeholder are appended and
exactly one request is built, whose body has the `message` field iff the
trimmed text is non-empty and the `file` field iff a file is selected. -/
theorem c5_send_guard (input : String) (f : Option FileV) (cid : String) :
    (sendMessagePrep false input f cid = ([], none) ↔ (jsTrimString input = "" ∧ f = none))
    ∧ (jsTrimString input ≠ "" ∨ f ≠ none →
        sendMessagePrep false input f cid =
          ([⟨.user, userMsgText (jsTrimString input) f, .vundef⟩,
            ⟨.assistant, "Procesando...", .vundef⟩],
           some (buildFormData cid (jsTrimString input) f))
        ∧ ((buildFormData cid (jsTrimString input) f).message ≠ none ↔
            jsTrimString input ≠ "")
        ∧ (buildFormData cid (jsTrimString input) f).file = f) := by
  constructor
  · by_cases h : jsTrimString input = "" ∧ f = none
    · simp [sendMessagePrep, h]
    · simp only [sendMessagePrep, if_neg h, if_false]
      constructor
      · intro hh
        simp at hh
      · intro hh
        exact absurd hh h
  · intro h
    have hne : ¬(jsTrimString input = "" ∧ f = none) := by
      rcases h with h | h
      · exact fun hc => h hc.1
      · exact fun hc => h hc.2
    refine ⟨by simp [sendMessagePrep, hne], ?_, rfl⟩
    by_cases hm : jsTrimString input = "" <;> simp [buildFormData, hm]

/-- C5, witness: the theorem evaluated at input `"  hola  "`, no file, empty
stored conversation id. -/
theorem c5_witness :
    (sendMessagePrep false "  hola  " none "" = ([], none) ↔
      (jsTrimString "  hola  " = "" ∧ (none : Option FileV) = none))
    ∧ (jsTrimString "  hola  " ≠ "" ∨ (none : Option FileV) ≠ none →
        sendMessagePrep false "  hola  " none "" =
          ([⟨.user, userMsgText (jsTrimString "  hola  ") none, .vundef⟩,
            ⟨.assistant, "Procesando...", .vundef⟩],
           some (buildFormData "" (jsTrimString "  hola  ") none))
        ∧ ((buildFormData "" (jsTrimString "  hola  ") none).message ≠ none ↔
            jsTrimString "  hola  " ≠ "")
        ∧ (buildFormData "" (jsTrimString "  hola  ") none).file = none) :=
  c5_send_guard "  hola  " none ""

/-- C6: every issued request body is built by `buildFormData`, which includes
the `conversation_id` field iff the stored conversation identifier is
non-empty; and processing a decoded `final` event stores the payload's
`conversation_id` (and its assistant text and data) in the visible state with
`gotFinal` set. -/
theorem c6_conversation_id :
    (∀ (input : String) (f : Option FileV) (cid : String),
      (sendMessagePrep false input f cid).2 = none ∨
      (sendMessagePrep false input f cid).2 = some (buildFormData cid (jsTrimString input) f))
    ∧ (∀ (cid text : String) (f : Option FileV),
        ((buildFormData cid text f).conversation_id ≠ none ↔ cid ≠ "")
        ∧ (cid ≠ "" → (buildFormData cid text f).conversation_id = some cid))
    ∧ (∀ (m : MsgState) (hd gf : Bool) (fp : ChatResponse),
        processEvents m hd gf [SEvent.fin (some fp)] =
          .done ⟨fp.assistant_message, fp.data, fp.conversation_id⟩ hd true) := by
  refine ⟨?_, ?_, fun m hd gf fp => rfl⟩
  · intro input f cid
    by_cases h : jsTrimString input = "" ∧ f = none
    · exact Or.inl (by simp [sendMessagePrep, h])
    · exact Or.inr (by simp [sendMessagePrep, h])
  · intro cid text f
    by_cases h : cid = "" <;> simp [buildFormData, h]

/-- C6, witness: a non-empty stored id `"abc"` is included verbatim in the
request body. -/
theorem c6_witness : (buildFormData "abc" "hola" none).conversation_id = some "abc" :=
  (c6_conversation_id.2.1 "abc" "hola" none).2 (by decide)

/-- C8, counterexample: a non-ok response whose body is the JSON object
`{"error":{"message":""}}` carries a string at `error.message`, so the claim
prescribes that message (the empty string is "that result", so the fixed
default); the code instead tests truthiness, falls back to the raw body text,
and throws with the whole JSON text as its message. -/
theorem c8_counterexample :
    httpErrMessage rawC8 (some ⟨some ⟨.vstr ""⟩⟩) = rawC8
    ∧ specHttpErrMessage rawC8 (some ⟨some ⟨.vstr ""⟩⟩) = "Error enviando mensaje"
    ∧ rawC8 ≠ "Error enviando mensaje" := by
  refine ⟨by decide, by decide, by decide⟩

/-- C8, amended: on a non-ok response the function throws before any stream
event is read (the outcome does not depend on the stream contents), with a
message equal to the string conversion of `error.message` when the body
parses as an object carrying a truthy one, the raw body text otherwise, and
`"Error enviando mensaje"` when that fallback is the empty string. -/
theorem c8_amended_thm (resp : HttpResp) (m : MsgState) (h : resp.ok = false) :
    sendMessageStreamingRun resp m =
      .thrown (httpErrMessage resp.bodyText resp.bodyParsed) m
    ∧ (∀ evs, sendMessageStreamingRun { resp with events := evs } m
        = sendMessageStreamingRun resp m)
    ∧ httpErrMessage resp.bodyText resp.bodyParsed =
        (match resp.bodyParsed with
         | some ⟨some ⟨mv⟩⟩ =>
            if jsTruthy mv then jsToString mv
            else if resp.bodyText = "" then "Error enviando mensaje" else resp.bodyText
         | _ => if resp.bodyText = "" then "Error enviando mensaje" else resp.bodyText) := by
  exact ⟨by simp [sendMessageStreamingRun, h],
    fun evs => by simp [sendMessageStreamingRun, h],
    httpErrMessage_spec resp.bodyText resp.bodyParsed⟩

/-- C8, witness: the amended theorem applied to a concrete non-ok response
with plain-text body `"oops"`. -/
theorem c8_witness :
    sendMessageStreamingRun respX mInit = .thrown (httpErrMessage "oops" none) mInit :=
  (c8_amended_thm respX mInit rfl).1

lemma any_or_split (l : List SEvent) (f g : SEvent → Bool) :
    l.any (fun e => f e || g e) = (l.any f || l.any g) := by
  induction l with
  | nil => rfl
  | cons e r ih =>
    simp only [List.any_cons, ih]
    cases f e <;> cases g e <;> simp

lemma processEvents_isDone (evs : List SEvent) : ∀ (m : MsgState) (hd gf : Bool),
    (processEvents m hd gf evs).isDone = !(evs.any fun e => isErrEv e || isBadFin e) := by
  induction evs with
  | nil => intro m hd gf; rfl
  | cons e rest ih =>
    intro m hd gf
    cases e with
    | start => simpa [processEvents, isErrEv, isBadFin] using ih _ hd gf
    | delta p =>
      by_cases hq : jsTruthy (deltaPiece p) = true
      · simpa [processEvents, hq, isErrEv, isBadFin] using ih _ true gf
      · simpa [processEvents, hq, isErrEv, isBadFin] using ih _ hd gf
    | err p => simp [processEvents, isErrEv, LoopRes.isDone]
    | fin p =>
      cases p with
      | none => simp [processEvents, isBadFin, isErrEv, LoopRes.isDone]
      | some fp => simpa [processEvents, isErrEv, isBadFin] using ih _ hd true
    | other => simpa [processEvents, isErrEv, isBadFin] using ih _ hd gf

lemma processEvents_got (evs : List SEvent) : ∀ (m : MsgState) (hd gf : Bool),
    (evs.any fun e => isErrEv e || isBadFin e) = false →
    (processEvents m hd gf evs).got = (gf || evs.any isGoodFin) := by
  induction evs with
  | nil => intro m hd gf _; simp [processEvents, LoopRes.got]
  | cons e rest ih =>
    intro m hd gf h
    rw [List.any_cons, Bool.or_eq_false_iff] at h
    cases e with
    | start => simpa [processEvents, isGoodFin] using ih _ hd gf h.2
    | delta p =>
      by_cases hq : jsTruthy (deltaPiece p) = true
      · simpa [processEvents, hq, isGoodFin] using ih _ true gf h.2
      · simpa [processEvents, hq, isGoodFin] using ih _ hd gf h.2
    | err p => simp [isErrEv] at h
    | fin p =>
      cases p with
      | none => simp [isBadFin] at h
      | some fp =>
        have := ih ⟨fp.assistant_message, fp.data, fp.conversation_id⟩ hd true h.2
        simp [processEvents, isGoodFin, this]
    | other => simpa [processEvents, isGoodFin] using ih _ hd gf h.2

/-- C1, counterexample: the claim's condition — some `final` parsed with no
`error` before it — holds for the stream `[final, error]`, yet
`sendMessageStreaming` does not complete normally on it: the loop keeps
reading after the `final` and throws on the trailing `error` event. -/
theorem c1_counterexample :
    claimC1Cond [SEvent.fin (some fpA), SEvent.err none]
    ∧ (runStreaming mInit [SEvent.fin (some fpA), SEvent.err none]).isOk = false := by
  constructor
  · exact ⟨[], fpA, [SEvent.err none], rfl, by intro e he; cases he⟩
  · rfl

/-- C1, amended: `sendMessageStreaming` completes normally iff the stream
contains at least one `final` event with a decodable payload, no `final`
event with an undecodable payload, and no `error` event anywhere — before or
after the `final`; in particular a stream that ends without any `final`
event always makes the function throw. -/
theorem c1_amended_thm (m : MsgState) (evs : List SEvent) :
    (runStreaming m evs).isOk =
      (evs.any isGoodFin && !evs.any isErrEv && !evs.any isBadFin) := by
  have h1 := processEvents_isDone evs m false false
  have h2 := processEvents_got evs m false false
  rw [any_or_split] at h1 h2
  unfold runStreaming
  rcases hp : processEvents m false false evs with ⟨m', hd', g⟩ | ⟨msg, m'⟩ <;> rw [hp] at h1 h2
  · have h1' : (evs.any isErrEv || evs.any isBadFin) = false := by
      cases hx : (evs.any isErrEv || evs.any isBadFin)
      · rfl
      · rw [hx] at h1
        exact absurd h1 (by simp [LoopRes.isDone])
    rw [Bool.or_eq_false_iff] at h1'
    have hg : g = evs.any isGoodFin := by
      have := h2 (by rw [h1'.1, h1'.2]; rfl)
      simpa [LoopRes.got] using this
    rw [h1'.1, h1'.2]
    cases hgv : evs.any isGoodFin <;> rw [hgv] at hg <;>
      simp [hg, hgv, Outcome.isOk]
  · have h1' : (evs.any isErrEv || evs.any isBadFin) = true := by
      cases hx : (evs.any isErrEv || evs.any isBadFin)
      · rw [hx] at h1
        exact absurd h1 (by simp [LoopRes.isDone])
      · rfl
    rcases Bool.or_eq_true_iff.mp h1' with hh | hh <;> simp [Outcome.isOk, hh]

lemma textual_deltaPiece {d : Option StreamDelta} (h : textualDelta d) :
    deltaPiece d = .vstr (pieceStr d) := by
  rcases d with _ | ⟨⟨c⟩⟩
  · rfl
  · have h' : c = .vundef ∨ c = .vnull ∨ ∃ s, c = .vstr s := h
    rcases h' with rfl | rfl | ⟨s, rfl⟩ <;> rfl

lemma deltas_fold_acc (ds : List (Option StreamDelta)) :
    ∀ (dt cv : JsVal) (acc : String) (gf : Bool),
    (∀ d ∈ ds, textualDelta d) →
    processEvents ⟨.vstr acc, dt, cv⟩ true gf (ds.map SEvent.delta) =
      .done ⟨.vstr (acc ++ concatStrs (ds.map pieceStr)), dt, cv⟩ true gf := by
  induction ds with
  | nil =>
    intro dt cv acc gf _
    simp [processEvents, concatStrs]
  | cons d rest ih =>
    intro dt cv acc gf h
    have hd := h d (List.mem_cons_self d rest)
    have hr : ∀ x ∈ rest, textualDelta x := fun x hx => h x (List.mem_cons_of_mem d hx)
    by_cases hq : pieceStr d = ""
    · have step : processEvents ⟨.vstr acc, dt, cv⟩ true gf
          ((d :: rest).map SEvent.delta) =
          processEvents ⟨.vstr acc, dt, cv⟩ true gf (rest.map SEvent.delta) := by
        simp [processEvents, textual_deltaPiece hd, jsTruthy, hq]
      rw [step, ih dt cv acc gf hr]
      simp [concatStrs, hq]
    · have hq' : (pieceStr d == "") = false := by simp [hq]
      have step : processEvents ⟨.vstr acc, dt, cv⟩ true gf
          ((d :: rest).map SEvent.delta) =
          processEvents ⟨.vstr (acc ++ pieceStr d), dt, cv⟩ true gf
            (rest.map SEvent.delta) := by
        simp [processEvents, textual_deltaPiece hd, jsTruthy, hq', jsToString]
      rw [step, ih dt cv (acc ++ pieceStr d) gf hr]
      simp [concatStrs, String.append_assoc]

lemma deltas_fold_fresh (ds : List (Option StreamDelta)) :
    ∀ (t dt cv : JsVal) (gf : Bool),
    (∀ d ∈ ds, textualDelta d) →
    processEvents ⟨t, dt, cv⟩ false gf (ds.map SEvent.delta) =
      .done ⟨if concatStrs (ds.map pieceStr) = "" then t
             else .vstr (concatStrs (ds.map pieceStr)), dt, cv⟩
        (!(concatStrs (ds.map pieceStr) == "")) gf := by
  induction ds with
  | nil =>
    intro t dt cv gf _
    simp [processEvents, concatStrs]
  | cons d rest ih =>
    intro t dt cv gf h
    have hd := h d (List.mem_cons_self d rest)
    have hr : ∀ x ∈ rest, textualDelta x := fun x hx => h x (List.mem_cons_of_mem d hx)
    by_cases hq : pieceStr d = ""
    · have step : processEvents ⟨t, dt, cv⟩ false gf ((d :: rest).map SEvent.delta) =
          processEvents ⟨t, dt, cv⟩ false gf (rest.map SEvent.delta) := by
        simp [processEvents, textual_deltaPiece hd, jsTruthy, hq]
      rw [step, ih t dt cv gf hr]
      simp [concatStrs, hq]
    · have hq' : (pieceStr d == "") = false := by simp [hq]
      have step : processEvents ⟨t, dt, cv⟩ false gf ((d :: rest).map SEvent.delta) =
          processEvents ⟨.vstr (pieceStr d), dt, cv⟩ true gf (rest.map SEvent.delta) := by
        simp [processEvents, textual_deltaPiece hd, jsTruthy, hq', jsToString]
      have hne : pieceStr d ++ concatStrs (rest.map pieceStr) ≠ "" := fun hc =>
        hq (strAppendEqEmpty.mp hc).1
      have hne' : (pieceStr d ++ concatStrs (rest.map pieceStr) == "") = false := by
        simp [hne]
      rw [step, deltas_fold_acc rest dt cv (pieceStr d) gf hr]
      simp [concatStrs, hne, hne']

/-- C2: on a stream whose events before the terminal are `start` followed by
`delta` events carrying textual contents, the assistant text immediately
before the terminal equals the concatenation of the delta contents in arrival
order (absent or empty `content` fields contribute nothing); the
`"Procesando..."` placeholder set by the `start` event survives exactly until
the first non-empty delta (so it remains when every delta is empty). -/
theorem c2_delta_concat (m : MsgState) (ds : List (Option StreamDelta))
    (h : ∀ d ∈ ds, textualDelta d) :
    processEvents m false false (SEvent.start :: ds.map SEvent.delta) =
      .done ⟨if concatStrs (ds.map pieceStr) = "" then .vstr "Procesando..."
             else .vstr (concatStrs (ds.map pieceStr)), m.data, m.convId⟩
        (!(concatStrs (ds.map pieceStr) == "")) false
    ∧ (concatStrs (ds.map pieceStr) ≠ "" →
        (processEvents m false false (SEvent.start :: ds.map SEvent.delta)).state.text =
          .vstr (concatStrs (ds.map pieceStr))) := by
  have hrun : processEvents m false false (SEvent.start :: ds.map SEvent.delta) =
      processEvents ⟨.vstr "Procesando...", m.data, m.convId⟩ false false
        (ds.map SEvent.delta) := rfl
  rw [hrun, deltas_fold_fresh ds (.vstr "Procesando...") m.data m.convId false h]
  refine ⟨rfl, fun hne => ?_⟩
  simp [LoopRes.state, hne]

/-- C2, witness: the theorem applied to the placeholder start state and two
deltas carrying `"Ho"` and `"la"`. -/
theorem c2_witness :
    (processEvents mInit false false (SEvent.start :: dsW.map SEvent.delta) =
      .done ⟨if concatStrs (dsW.map pieceStr) = "" then .vstr "Procesando..."
             else .vstr (concatStrs (dsW.map pieceStr)), mInit.data, mInit.convId⟩
        (!(concatStrs (dsW.map pieceStr) == "")) false)
    ∧ (concatStrs (dsW.map pieceStr) ≠ "" →
        (processEvents mInit false false (SEvent.start :: dsW.map SEvent.delta)).state.text =
          .vstr (concatStrs (dsW.map pieceStr))) :=
  c2_delta_concat mInit dsW (by
    intro d hd
    rcases hd with _ | ⟨_, hd⟩
    · exact Or.inr (Or.inr ⟨"Ho", rfl⟩)
    · rcases hd with _ | ⟨_, hd⟩
      · exact Or.inr (Or.inr ⟨"la", rfl⟩)
      · cases hd)

lemma sb_nil : splitBlocks [] = [[]] := rfl

lemma sb_single (c : Char) : splitBlocks [c] = [[c]] := rfl

lemma sb_cons₂ (c d : Char) (rest : List Char) :
    splitBlocks (c :: d :: rest) =
      if c = '\n' ∧ d = '\n' then [] :: splitBlocks rest
      else
        match splitBlocks (d :: rest) with
        | [] => [[c]]
        | b :: bs => (c :: b) :: bs := by
  rw [splitBlocks]

lemma sb_ne_nil : ∀ l : List Char, splitBlocks l ≠ []
  | [] => by simp [sb_nil]
  | [c] => by simp [sb_single]
  | c :: d :: rest => by
    rw [sb_cons₂]
    split
    · simp
    · rcases hs : splitBlocks (d :: rest) with _ | ⟨b, bs⟩ <;> simp

lemma sb_singleton : ∀ (l s : List Char), splitBlocks l = [s] → s = l
  | [], s => by rw [sb_nil]; intro h; injection h with h1 _; exact h1.symm
  | [c], s => by rw [sb_single]; intro h; injection h with h1 _; exact h1.symm
  | c :: d :: rest, s => by
    rw [sb_cons₂]
    split
    · intro h
      injection h with _ h2
      exact absurd h2 (sb_ne_nil rest)
    · rcases hs : splitBlocks (d :: rest) with _ | ⟨b, bs⟩
      · exact absurd hs (sb_ne_nil _)
      · intro h
        injection h with h1 h2
        subst h2
        have hb : b = d :: rest := sb_singleton (d :: rest) b hs
        rw [← h1, hb]

lemma sb_cons_of (c : Char) (l : List Char) (b : List Char) (bs : List (List Char))
    (hS : splitBlocks l = b :: bs)
    (h : ¬(c = '\n' ∧ l.head? = some '\n')) :
    splitBlocks (c :: l) = (c :: b) :: bs := by
  cases l with
  | nil =>
    rw [sb_nil] at hS
    injection hS with h1 h2
    subst h1
    subst h2
    rfl
  | cons d l' =>
    have hcd : ¬(c = '\n' ∧ d = '\n') := by
      rintro ⟨h1, h2⟩
      exact h ⟨h1, by subst h2; rfl⟩
    rw [sb_cons₂, if_neg hcd, hS]

lemma sb_append : ∀ a b : List Char,
    splitBlocks (a ++ b) =
      (splitBlocks a).dropLast ++ splitBlocks ((splitBlocks a).getLastD [] ++ b)
  | [], b => by simp [sb_nil]
  | [c], b => by simp [sb_single]
  | c :: d :: rest, b => by
    by_cases h : c = '\n' ∧ d = '\n'
    · obtain ⟨rfl, rfl⟩ := h
      have hl : ('\n' :: '\n' :: rest) ++ b = '\n' :: '\n' :: (rest ++ b) := rfl
      rw [hl, sb_cons₂, if_pos ⟨rfl, rfl⟩, sb_cons₂, if_pos ⟨rfl, rfl⟩,
        sb_append rest b]
      rcases hs : splitBlocks rest with _ | ⟨r, rs⟩
      · exact absurd hs (sb_ne_nil rest)
      · rw [List.dropLast_cons₂, List.cons_append]
        simp only [List.getLastD_cons]
    · rcases hs : splitBlocks (d :: rest) with _ | ⟨s, ss⟩
      · exact absurd hs (sb_ne_nil _)
      · have hhd : ¬(c = '\n' ∧ (d :: rest).head? = some '\n') := by
          rintro ⟨h1, h2⟩
          injection h2 with h2
          exact h ⟨h1, h2⟩
        have hR := sb_cons_of c (d :: rest) s ss hs hhd
        cases ss with
        | nil =>
          have hsd : s = d :: rest := sb_singleton _ _ hs
          subst hsd
          rw [hR]
          have hl : (c :: d :: rest) ++ b = c :: ((d :: rest) ++ b) := rfl
          rw [hl]
          rfl
        | cons s2 ss' =>
          have hT := sb_append (d :: rest) b
          rw [hs, List.dropLast_cons₂, List.getLastD_cons, List.cons_append] at hT
          have hhd' : ¬(c = '\n' ∧ ((d :: rest) ++ b).head? = some '\n') := by
            rintro ⟨h1, h2⟩
            injection h2 with h2
            exact h ⟨h1, h2⟩
          have hL := sb_cons_of c ((d :: rest) ++ b) _ _ hT hhd'
          have hl : (c :: d :: rest) ++ b = c :: ((d :: rest) ++ b) := rfl
          rw [hl, hL, hR, List.dropLast_cons₂, List.cons_append]
          simp only [List.getLastD_cons, List.append_eq]

lemma getLastD_append_right (l₁ l₂ : List (List Char)) (h : l₂ ≠ []) :
    (l₁ ++ l₂).getLastD [] = l₂.getLastD [] := by
  rw [List.getLastD_eq_getLast?, List.getLastD_eq_getLast?, List.getLast?_append]
  obtain ⟨t, ht⟩ := Option.isSome_iff_exists.mp (List.getLast?_isSome.mpr h)
  rw [ht]
  rfl

lemma feedChunks_spec : ∀ (cs : List (List Char)) (buf c : List Char),
    feedChunks buf (c :: cs) =
      ((splitBlocks (buf ++ c ++ cs.join)).getLastD [],
       (splitBlocks (buf ++ c ++ cs.join)).dropLast)
  | [], buf, c => by
    simp [feedChunks, feedChunk]
  | c2 :: cs', buf, c => by
    have hU : splitBlocks (buf ++ c ++ (c2 :: cs').join) =
        (splitBlocks (buf ++ c)).dropLast ++
          splitBlocks ((splitBlocks (buf ++ c)).getLastD [] ++ c2 ++ cs'.join) := by
      have : buf ++ c ++ (c2 :: cs').join = (buf ++ c) ++ (c2 ++ cs'.join) := by
        simp [List.join]
      rw [this, sb_append (buf ++ c) (c2 ++ cs'.join), ← List.append_assoc]
    show (let r1 := feedChunk buf c
          let r2 := feedChunks r1.1 (c2 :: cs')
          (r2.1, r1.2 ++ r2.2)) = _
    simp only [feedChunk, feedChunks_spec cs' ((splitBlocks (buf ++ c)).getLastD []) c2]
    rw [hU, getLastD_append_right _ _ (sb_ne_nil _),
      List.dropLast_append_of_ne_nil _ (sb_ne_nil _)]

/-- C9: chunk-split invariance of the read loop — for every partition of the
SSE character stream into chunks, the sequence of `(event, data)` pairs
parsed from the consumed blocks equals the one parsed when the whole stream
arrives as a single chunk, because only complete blank-line-delimited blocks
are consumed and the trailing incomplete block is retained in the buffer. -/
theorem c9_chunk_invariance (chunks : List (List Char)) :
    ((feedChunks [] chunks).2).filterMap parseSseBlock =
      ((feedChunks [] [chunks.join]).2).filterMap parseSseBlock := by
  cases chunks with
  | nil => rfl
  | cons c cs =>
    rw [feedChunks_spec cs [] c, feedChunks_spec [] [] ((c :: cs).join)]
    simp [List.join]

lemma evMark_clean : evMark.reverse.dropWhile isJsWs = evMark.reverse := by decide

lemma dataMark_clean : dataMark.reverse.dropWhile isJsWs = dataMark.reverse := by decide

lemma trimEnd_prefix_self (raw : List Char) : jsTrimEndL raw <+: raw := by
  have h := List.dropWhile_suffix (l := raw.reverse) isJsWs
  have h2 := List.reverse_prefix.mpr h
  rw [List.reverse_reverse] at h2
  exact h2

lemma jsTrimEndL_append (p t : List Char) (hp : p.reverse.dropWhile isJsWs = p.reverse) :
    jsTrimEndL (p ++ t) = p ++ jsTrimEndL t := by
  unfold jsTrimEndL
  rw [List.reverse_append, List.dropWhile_append]
  by_cases hc : (t.reverse.dropWhile isJsWs).isEmpty
  · have ht : t.reverse.dropWhile isJsWs = [] := List.isEmpty_iff.mp hc
    rw [if_pos hc, hp, List.reverse_reverse, ht, List.reverse_nil, List.append_nil]
  · rw [if_neg hc, List.reverse_append, List.reverse_reverse]

lemma jsTrimEndL_idem (t : List Char) : jsTrimEndL (jsTrimEndL t) = jsTrimEndL t := by
  unfold jsTrimEndL
  rw [List.reverse_reverse, List.dropWhile_idempotent]

lemma isPrefixOf_trimEnd (p raw : List Char)
    (hp : p.reverse.dropWhile isJsWs = p.reverse) :
    p.isPrefixOf (jsTrimEndL raw) = p.isPrefixOf raw := by
  cases hr : p.isPrefixOf raw with
  | true =>
    obtain ⟨t, rfl⟩ := List.isPrefixOf_iff_prefix.mp hr
    rw [jsTrimEndL_append p t hp]
    exact List.isPrefixOf_iff_prefix.mpr (List.prefix_append p _)
  | false =>
    cases ht : p.isPrefixOf (jsTrimEndL raw) with
    | false => rfl
    | true =>
      have h1 := List.isPrefixOf_iff_prefix.mp ht
      have h2 := List.isPrefixOf_iff_prefix.mpr (h1.trans (trimEnd_prefix_self raw))
      rw [hr] at h2
      cases h2

lemma prefix_of_trimEnd_nil {p raw : List Char}
    (hp : p.reverse.dropWhile isJsWs = p.reverse) (hne : p ≠ [])
    (ht : jsTrimEndL raw = []) : p.isPrefixOf raw = false := by
  rw [← isPrefixOf_trimEnd p raw hp, ht]
  cases p with
  | nil => exact absurd rfl hne
  | cons c l => rfl

lemma ev_data_excl {l : List Char} (h1 : evMark.isPrefixOf l = true)
    (h2 : dataMark.isPrefixOf l = true) : False := by
  obtain ⟨t1, ht1⟩ := List.isPrefixOf_iff_prefix.mp h1
  obtain ⟨t2, ht2⟩ := List.isPrefixOf_iff_prefix.mp h2
  rw [← ht1] at ht2
  have hh := congrArg List.head? ht2
  rw [show (evMark ++ t1).head? = some 'e' from rfl,
    show (dataMark ++ t2).head? = some 'd' from rfl] at hh
  injection hh with hh
  exact absurd hh (by decide)

lemma event_value_eq (raw : List Char) (h : evMark.isPrefixOf raw = true) :
    jsTrimL ((jsTrimEndL raw).drop 6) = jsTrimL (raw.drop 6) := by
  obtain ⟨t, rfl⟩ := List.isPrefixOf_iff_prefix.mp h
  rw [jsTrimEndL_append evMark t evMark_clean,
    show (6 : Nat) = evMark.length from rfl, List.drop_left, List.drop_left]
  unfold jsTrimL
  rw [jsTrimEndL_idem]

lemma parseSseLoop_spec : ∀ (lines : List (List Char)) (ev : List Char)
    (ds : List (List Char)),
    parseSseLoop lines ev ds =
      ((((lines.filter fun l => evMark.isPrefixOf l).getLast?).map
          (fun l => jsTrimL (l.drop 6))).getD ev,
       ds ++ (lines.filter fun l => dataMark.isPrefixOf l).map
          (fun l => jsTrimStartL ((jsTrimEndL l).drop 5)))
  | [], ev, ds => by simp [parseSseLoop]
  | raw :: rest, ev, ds => by
    simp only [parseSseLoop]
    by_cases h0 : jsTrimEndL raw = []
    · have hev : evMark.isPrefixOf raw = false :=
        prefix_of_trimEnd_nil evMark_clean (by decide) h0
      have hda : dataMark.isPrefixOf raw = false :=
        prefix_of_trimEnd_nil dataMark_clean (by decide) h0
      rw [if_pos h0, parseSseLoop_spec rest ev ds, List.filter_cons, List.filter_cons,
        hev, hda]
      simp
    · rw [if_neg h0]
      by_cases hev : evMark.isPrefixOf (jsTrimEndL raw) = true
      · have hevraw : evMark.isPrefixOf raw = true := by
          rw [← isPrefixOf_trimEnd evMark raw evMark_clean]
          exact hev
        have hdraw : dataMark.isPrefixOf raw = false := by
          cases hd : dataMark.isPrefixOf raw with
          | false => rfl
          | true =>
            have hdt : dataMark.isPrefixOf (jsTrimEndL raw) = true := by
              rw [isPrefixOf_trimEnd dataMark raw dataMark_clean]
              exact hd
            exact absurd (ev_data_excl hev hdt) not_false
        rw [if_pos hev, parseSseLoop_spec rest _ ds, List.filter_cons, List.filter_cons,
          hevraw, hdraw]
        simp only [if_true, if_false, Bool.false_eq_true]
        refine Prod.ext ?_ rfl
        rcases hfr : (rest.filter fun l => evMark.isPrefixOf l) with _ | ⟨x, fr'⟩
        · simp only [List.getLast?_nil, Option.map_none', Option.getD_none]
          rw [show ([raw] : List (List Char)).getLast? = some raw from rfl]
          simp only [Option.map_some', Option.getD_some]
          exact event_value_eq raw hevraw
        · rw [List.getLast?_cons_cons]
          obtain ⟨y, hy⟩ := Option.isSome_iff_exists.mp
            (List.getLast?_isSome.mpr (List.cons_ne_nil x fr'))
          rw [hy]
          rfl
      · have hevraw : evMark.isPrefixOf raw = false := by
          rw [← isPrefixOf_trimEnd evMark raw evMark_clean]
          exact (Bool.not_eq_true _) ▸ hev
        by_cases hda : dataMark.isPrefixOf (jsTrimEndL raw) = true
        · have hdaraw : dataMark.isPrefixOf raw = true := by
            rw [← isPrefixOf_trimEnd dataMark raw dataMark_clean]
            exact hda
          rw [if_neg hev, if_pos hda,
            parseSseLoop_spec rest ev (ds ++ [jsTrimStartL ((jsTrimEndL raw).drop 5)]),
            List.filter_cons, List.filter_cons, hevraw, hdaraw]
          simp [List.append_assoc]
        · have hdaraw : dataMark.isPrefixOf raw = false := by
            rw [← isPrefixOf_trimEnd dataMark raw dataMark_clean]
            exact (Bool.not_eq_true _) ▸ hda
          rw [if_neg hev, if_neg hda,
            parseSseLoop_spec rest ev ds, List.filter_cons, List.filter_cons,
            hevraw, hdaraw]
          simp

/-- C10, counterexample: on the block `"data: x "` (trailing space) the code
right-trims the line before stripping, yielding data `"x"`, while the claim's
description — strip the `data:` prefix and leading whitespace only — yields
`"x "`. -/
theorem c10_counterexample :
    parseSseBlock "data: x ".data = some ⟨"message".data, "x".data⟩
    ∧ sseBlockClaim "data: x ".data = some ⟨"message".data, "x ".data⟩
    ∧ some (SsePair.mk "message".data "x".data) ≠
        some (SsePair.mk "message".data "x ".data) := by
  refine ⟨by decide, by decide, by decide⟩

/-- C10, amended: `parseSseBlock` returns `none` exactly when no line of the
block starts with `data:`; otherwise the event name comes from the last line
starting with `event:` (trimmed, default `"message"`), and the data string
joins, in order and separated by newlines, each data line right-trimmed,
stripped of the `data:` prefix and of leading whitespace. -/
theorem c10_amended_thm (block : List Char) :
    parseSseBlock block = sseBlockSpec block := by
  unfold parseSseBlock sseBlockSpec
  rw [parseSseLoop_spec]
  simp only [List.nil_append]

end ChatPanel
